import Mathlib

/-!
Verification development for the `halffloat` repository: a software
implementation of IEEE 754 binary16 arithmetic in C90-style integer code.

The definitions below are a shallow embedding of the C sources:
- `src/halffloat/hf_common.c` and `src/unnamed/part_003` (the current
  revision of `hf_common.c`): codec, alignment, normalization/rounding,
  rounding-mode state;
- `src/halffloat/hf_lib_common.c`: `compare_half`, `table_interpolate`,
  `exp_fixed`, `reduce_radian_uword`;
- `src/halffloat/hf_lib_round.c` (which also carries `hf_lib_arith.c`):
  `hf_add`, `hf_mul`, `hf_div`, `hf_sqrt`, `square_root`, stubs;
- `src/halffloat/hf_lib_exp.c`: `hf_exp` and the exp/log stubs;
- `src/unnamed/part_001` (`hf_lib_trig.c`): `sinus_shiftable`, `hf_sin`,
  `hf_cos`, `hf_tan`;
- `src/halffloat/hf_lib.c` (the earlier monolithic revision): `hf_cmp`,
  `hf_min`, `hf_max`, and in namespace `Oct` its `compose_half`.

Conventions of the embedding:
- encoded half-floats are `Nat` values `< 65536` (C `uint16_t`);
- the decomposed record `half_float` keeps C types: `sign : Nat`
  (`uint16_t`, either `0` or `0x8000`), `exp : Int` (C `int`),
  `mant : Int` (C `int32_t`);
- C bit operations on `int` values are modelled by their exact
  two's-complement arithmetic: `x & (2^k - 1)` is `x % 2^k` (`Int.emod`
  is nonnegative), `x & ~(2^k - 1)` is `x - x % 2^k`, arithmetic right
  shift is `(x - x % 2^k) / 2^k`, and a cast to `uint32_t` is `x % 2^32`;
- C `/` and `%` on `int` (truncation towards zero) are `Int.tdiv` and the
  matching remainder, written out where the operands can be negative;
- the process-wide rounding-mode variable is passed explicitly as a
  `mode` argument (its C initializer is `initial_rounding_mode`), and the
  runtime-generated lookup tables are passed as `List Nat` arguments.
-/

/-- C `hf_rounding_mode` enum from `hf_common.h`. -/
inductive hf_rounding_mode where
  | HF_ROUND_NEAREST_EVEN
  | HF_ROUND_NEAREST_UP
  | HF_ROUND_TOWARD_ZERO
  | HF_ROUND_TOWARD_POS_INF
  | HF_ROUND_TOWARD_NEG_INF
deriving DecidableEq, Repr

/-- C initializer `static hf_rounding_mode current_rounding_mode =
HF_ROUND_NEAREST_EVEN;` (`src/unnamed/part_003`, line 18). -/
def initial_rounding_mode : hf_rounding_mode := .HF_ROUND_NEAREST_EVEN

/-- C struct `half_float` from `hf_common.h`: `sign` is `uint16_t`
(always `0` or `0x8000`), `exp` is `int`, `mant` is `int32_t`. -/
structure half_float where
  sign : Nat
  exp : Int
  mant : Int
deriving DecidableEq, Repr

/-- Two's-complement `x & (2^k - 1)` of a C `int32_t` value, as a `Nat`
(also models the C cast of `x` to an unsigned type of width `k`). -/
def lowBits (x : Int) (k : Nat) : Nat := (x % ((2 : Int) ^ k)).toNat

/-- Two's-complement arithmetic right shift `x >> k` of a C `int32_t`
(the difference is divisible by `2^k`, so `/` is exact division). -/
def sar (x : Int) (k : Nat) : Int := (x - x % ((2 : Int) ^ k)) / ((2 : Int) ^ k)

/-- Two's-complement bit test `x & (1 << k)` of a C `int32_t`, as the
proposition that the bit is set. -/
def tbitP (x : Int) (k : Nat) : Prop := ((2 : Int) ^ k) ≤ x % ((2 : Int) ^ (k + 1))

instance (x : Int) (k : Nat) : Decidable (tbitP x k) := by unfold tbitP; infer_instance

/-- Two's-complement `x & ~(2^k - 1)`: clear the low `k` bits. -/
def clearLow (x : Int) (k : Nat) : Int := x - x % ((2 : Int) ^ k)

/-- Two's-complement `x | 1`: set the low bit. -/
def orOne (x : Int) : Int := if x % 2 = 0 then x else x + 1

/-- C predicate `is_nan` (`hf_common.c`): sentinel exponent
`HF_EXP_FULL = 16` with a nonzero mantissa. -/
def is_nan (hf : half_float) : Bool := hf.exp == 16 && hf.mant != 0

/-- C predicate `is_infinity` (`hf_common.c`): sentinel exponent with a
zero mantissa. -/
def is_infinity (hf : half_float) : Bool := hf.exp == 16 && hf.mant == 0

/-- C predicate `is_zero` (`hf_common.c`): non-sentinel exponent with a
zero mantissa. -/
def is_zero (hf : half_float) : Bool := hf.exp != 16 && hf.mant == 0

/-- C `decompose_half` (`hf_common.c`, identical in both revisions).
The C code assigns `sign` and `mant = (hf & HF_MASK_MANT) <<
HF_PRECISION_SHIFT` unconditionally and then fixes up `exp` (and the
implicit bit of `mant`) by cases on the raw exponent field; here each
field carries its final value. -/
def decompose_half (hf : Nat) : half_float :=
  let e : Nat := (hf >>> 10) &&& 31
  let m : Nat := (hf &&& 0x3FF) <<< 5
  { sign := hf &&& 0x8000
    exp := if e = 0 then -15 else if e = 31 then 16 else (e : Int) - 15
    mant := if e = 0 ∨ e = 31 then (m : Int) else ((m ||| 0x8000 : Nat) : Int) }

/-- C `compose_half` of the current revision (`src/unnamed/part_003`,
lines 186-209): Infinity/NaN by sentinel exponent, a normalized value by
the implicit bit `mant & HF_MANT_NORM_MIN`, otherwise the subnormal/zero
encoding `(mant >> HF_PRECISION_SHIFT) & HF_MASK_MANT`. -/
def compose_half (hf : half_float) : Nat :=
  if hf.exp = 16 then
    hf.sign ||| (if hf.mant ≠ 0 then 0x7E00 else 0x7C00)
  else if tbitP hf.mant 15 then
    hf.sign ||| ((lowBits (hf.exp + 15) 5) <<< 10) ||| lowBits (sar hf.mant 5) 10
  else
    hf.sign ||| lowBits (sar hf.mant 5) 10

namespace Oct

/-- C `compose_half` of the earlier revision
(`src/halffloat/hf_common.c`, lines 189-211): the subnormal case is keyed
on `exp == HF_EXP_MIN` and shifts by `HF_PRECISION_SHIFT + 1`. -/
def compose_half (hf : half_float) : Nat :=
  if hf.exp = 16 then
    hf.sign ||| (if hf.mant ≠ 0 then 0x7E00 else 0x7C00)
  else if hf.exp = -15 then
    hf.sign ||| lowBits (sar hf.mant 6) 10
  else if hf.mant ≠ 0 then
    hf.sign ||| ((lowBits (hf.exp + 15) 5) <<< 10) ||| lowBits (sar hf.mant 5) 10
  else
    hf.sign

end Oct

/-- The in-place update `align_mantissas` performs on the operand with
the smaller exponent (`hf_common.c`): shift right by the capped exponent
difference, OR-reducing lost bits into a sticky bit. -/
def align_shift (smaller : half_float) (exp_target : Int) : half_float :=
  let shift0 : Int := exp_target - smaller.exp
  let shift : Int := if shift0 > 31 then 31 else shift0
  if 0 < shift ∧ shift < 31 then
    let lost : Nat := lowBits smaller.mant shift.toNat
    let m : Int := sar smaller.mant shift.toNat
    { smaller with mant := if lost ≠ 0 then orOne m else m, exp := exp_target }
  else if 31 ≤ shift then
    { smaller with mant := if smaller.mant ≠ 0 then 1 else 0, exp := exp_target }
  else
    { smaller with exp := exp_target }

/-- C `align_mantissas` (`hf_common.c`, identical in both revisions),
as a function returning the updated pair. -/
def align_mantissas (hf1 hf2 : half_float) : half_float × half_float :=
  if hf1.exp > hf2.exp then (hf1, align_shift hf2 hf1.exp)
  else if hf2.exp > hf1.exp then (align_shift hf1 hf2.exp, hf2)
  else (hf1, hf2)

/-- C `should_round_up` (`src/unnamed/part_003`, lines 360-386), with the
global mode passed explicitly; `lsb` is the C argument `mant & (1 <<
HF_PRECISION_SHIFT)` (zero or 32). -/
def should_round_up (mode : hf_rounding_mode) (round_bits lsb : Nat) (sign : Nat) : Bool :=
  match mode with
  | .HF_ROUND_NEAREST_EVEN => round_bits > 16 || (round_bits == 16 && lsb != 0)
  | .HF_ROUND_NEAREST_UP => round_bits ≥ 16
  | .HF_ROUND_TOWARD_POS_INF => sign == 0 && round_bits != 0
  | .HF_ROUND_TOWARD_NEG_INF => sign != 0 && round_bits != 0
  | .HF_ROUND_TOWARD_ZERO => false

/-- The `while((int32_t)temp > 0) {temp <<= 1; shift++;}` loop of
`normalize_and_round`, refining the MSB position. The loop body runs at
most 31 times (any nonzero `uint32_t` reaches bit 31 within 31 doublings,
and a zero `temp` fails the condition at once), so fuel 32 reproduces the
C loop exactly. -/
def msb_loop : Nat → Nat → Nat → Nat
  | 0, _, shift => shift
  | fuel + 1, temp, shift =>
    if 0 < temp ∧ temp < 2 ^ 31 then msb_loop fuel ((temp <<< 1) % 2 ^ 32) (shift + 1)
    else shift

/-- C `normalize_and_round` of the current revision (`src/unnamed/
part_003`, lines 257-314): MSB normalization limited by `HF_EXP_MIN`,
mode-dependent rounding on the guard/sticky bits with one-bit carry
renormalization, overflow to Infinity, underflow to subnormal/zero, and
the final masking of the reserved low bits. -/
def normalize_and_round (mode : hf_rounding_mode) (result : half_float) : half_float :=
  let r1 :=
    if result.mant ≠ 0 then
      -- MSB search: dichotomy, then the refinement loop
      let temp0 : Nat := lowBits result.mant 32
      let shift0 : Nat :=
        if temp0 > 0xFFFFFF then 0 else if temp0 > 0xFFFF then 8
        else if temp0 > 0xFF then 16 else 24
      let shiftN : Nat := msb_loop 32 ((temp0 <<< shift0) % 2 ^ 32) shift0
      -- shift -= HF_MANT_BITS + HF_PRECISION_SHIFT + 1
      let shift1 : Int := (shiftN : Int) - 16
      let margin : Int := result.exp + 15
      let shift2 : Int := if shift1 > margin then margin else shift1
      let mant1 : Int :=
        if shift2 > 0 then result.mant * 2 ^ shift2.toNat
        else if shift2 < 0 then sar result.mant (-shift2).toNat
        else result.mant
      let exp1 : Int := result.exp - shift2
      -- rounding per the configured mode
      if tbitP mant1 4 then
        let round_bits : Nat := lowBits mant1 5
        let lsb : Nat := if tbitP mant1 5 then 32 else 0
        if should_round_up mode round_bits lsb result.sign then
          let mant2 := mant1 + 32
          if mant2 ≥ 65536 then { result with mant := sar mant2 1, exp := exp1 + 1 }
          else { result with mant := mant2, exp := exp1 }
        else { result with mant := mant1, exp := exp1 }
      else { result with mant := mant1, exp := exp1 }
    else result
  let r2 :=
    if r1.exp > 15 then { r1 with exp := 16, mant := 0 }
    else if r1.exp < -15 then
      let shift : Nat := (-15 - r1.exp).toNat
      { r1 with exp := -15
                mant := if (shift : Int) < 16 then sar (r1.mant + 2 ^ (shift - 1)) shift else 0 }
    else r1
  { r2 with mant := clearLow r2.mant 5 }

/-- The `while(hf->mant <= (HF_MANT_NORM_MIN >> 1))` doubling loop of
`normalize_denormalized_mantissa`; a positive mantissa exceeds 16384
within at most 15 doublings, so fuel 32 reproduces the C loop exactly. -/
def ndm_loop : Nat → Int → Int → Int × Int
  | 0, m, e => (m, e)
  | fuel + 1, m, e => if m ≤ 16384 then ndm_loop fuel (m * 2) (e - 1) else (m, e)

/-- C `normalize_denormalized_mantissa` of the current revision
(`src/unnamed/part_003`, lines 325-332). -/
def normalize_denormalized_mantissa (hf : half_float) : half_float :=
  if hf.mant ≠ 0 then
    let p := ndm_loop 32 hf.mant hf.exp
    { hf with mant := p.1, exp := p.2 }
  else hf

/-- C `compare_half` (`hf_lib_common.c`, lines 72-89; the `static` copy
in `hf_lib.c`, lines 1206-1228, is identical). Note that the C code XORs
the comparison results (`int` 0/1) with `input1->sign`, a `uint16_t`
whose nonzero value is `0x8000`; both `0 ^ 0x8000` and `1 ^ 0x8000` are
nonzero, which the embedding reproduces with `(... ^^^ input1.sign) ≠ 0`. -/
def compare_half (input1 input2 : half_float) : Int :=
  if is_nan input1 || is_nan input2 then -2
  else if input1.sign ≠ input2.sign then
    (if input1.sign ≠ 0 then -1 else 1)
  else if input1.exp ≠ input2.exp then
    (if ((if input1.exp < input2.exp then 1 else 0) ^^^ input1.sign) ≠ 0 then -1 else 1)
  else if input1.mant ≠ input2.mant then
    (if ((if input1.mant < input2.mant then 1 else 0) ^^^ input1.sign) ≠ 0 then -1 else 1)
  else 0

/-- C `hf_cmp` (`hf_lib.c`, lines 79-83; identical in
`hf_lib_misc.c`). -/
def hf_cmp (hf1 hf2 : Nat) : Int :=
  compare_half (decompose_half hf1) (decompose_half hf2)

/-- C `hf_min` of `hf_lib.c` (lines 100-120): any NaN operand yields the
canonical NaN `HF_NAN = 0x7E00`; equal zeros collapse to `-0` when either
is negative. -/
def hf_min (hf1 hf2 : Nat) : Nat :=
  let input1 := decompose_half hf1
  let input2 := decompose_half hf2
  let cmp := compare_half input1 input2
  if cmp = -2 then 0x7E00
  else if cmp = 0 ∧ is_zero input1 ∧ is_zero input2 then
    (if input1.sign ≠ 0 ∨ input2.sign ≠ 0 then 0x8000 else 0x0000)
  else if cmp > 0 then hf2
  else hf1

/-- C `hf_max` of `hf_lib.c` (lines 137-157). -/
def hf_max (hf1 hf2 : Nat) : Nat :=
  let input1 := decompose_half hf1
  let input2 := decompose_half hf2
  let cmp := compare_half input1 input2
  if cmp = -2 then 0x7E00
  else if cmp = 0 ∧ is_zero input1 ∧ is_zero input2 then
    (if input1.sign ≠ 0 ∧ input2.sign ≠ 0 then 0x8000 else 0x0000)
  else if cmp < 0 then hf2
  else hf1

/-- C `hf_add` (`hf_lib_round.c`, lines 258-313, from the
`hf_lib_arith.c` module): NaN propagation keeps the first NaN's sign;
opposite infinities give a negative NaN; two zeros keep `-0` only when
both are negative; the general path aligns, sums signed mantissas and
normalizes. Each branch carries the final state of the C record, whose
default is `{HF_ZERO_POS, HF_EXP_FULL, 1}`. -/
def hf_add (mode : hf_rounding_mode) (hf1 hf2 : Nat) : Nat :=
  let input1 := decompose_half hf1
  let input2 := decompose_half hf2
  if is_nan input1 || is_nan input2 then
    compose_half { sign := if is_nan input1 then input1.sign else input2.sign
                   exp := 16, mant := 1 }
  else if is_infinity input1 || is_infinity input2 then
    (if is_infinity input1 && is_infinity input2 then
      (if input1.sign ≠ input2.sign then
        compose_half { sign := 0x8000, exp := 16, mant := 1 }
      else compose_half input1)
    else compose_half (if is_infinity input1 then input1 else input2))
  else if is_zero input1 && is_zero input2 then
    compose_half { sign := if input1.sign ≠ 0 ∧ input2.sign ≠ 0 then 0x8000 else 0x0000
                   exp := 0, mant := 0 }
  else
    let p := align_mantissas input1 input2
    let sum : Int := (if p.1.sign ≠ 0 then -p.1.mant else p.1.mant) +
                     (if p.2.sign ≠ 0 then -p.2.mant else p.2.mant)
    let r := { sign := if sum < 0 then (0x8000 : Nat) else 0x0000
               exp := p.1.exp
               mant := if sum < 0 then -sum else sum : half_float }
    compose_half (normalize_and_round mode r)

/-- C `hf_mul` (`hf_lib_round.c`, lines 334-372): NaN propagation,
`Inf * 0` is a negative NaN, the sign is the XOR of the operand signs,
zero operands give a signed zero, an infinity a signed infinity, and the
general path multiplies the mantissas (as `uint32_t`), shifts by
`HF_MANT_SHIFT` and normalizes. -/
def hf_mul (mode : hf_rounding_mode) (hf1 hf2 : Nat) : Nat :=
  let input1 := decompose_half hf1
  let input2 := decompose_half hf2
  if is_nan input1 || is_nan input2 then
    compose_half { sign := if is_nan input1 then input1.sign else input2.sign
                   exp := 16, mant := 1 }
  else if (is_infinity input1 && is_zero input2) || (is_infinity input2 && is_zero input1) then
    compose_half { sign := 0x8000, exp := 16, mant := 1 }
  else
    let s : Nat := input1.sign ^^^ input2.sign
    if is_zero input1 || is_zero input2 then
      compose_half { sign := s, exp := -15, mant := 0 }
    else if !is_infinity input1 && !is_infinity input2 then
      let mult_result : Nat := lowBits (input1.mant * input2.mant) 32
      compose_half (normalize_and_round mode
        { sign := s, exp := input1.exp + input2.exp, mant := ((mult_result >>> 15 : Nat) : Int) })
    else
      compose_half { sign := s, exp := 16, mant := 0 }

/-- C `hf_div` (`hf_lib_round.c`, lines 381-417): NaN propagation,
`Inf/Inf` a negative NaN, `Inf/x` and `x/0` a signed infinity, `x/Inf`
and `0/x` a signed zero, and otherwise integer division of the shifted
dividend with a sticky bit on a nonzero remainder. The final `0/0` guard
of the C code is kept even though the `is_zero(input2)` branch already
captured that pair. -/
def hf_div (mode : hf_rounding_mode) (hf1 hf2 : Nat) : Nat :=
  let input1 := decompose_half hf1
  let input2 := decompose_half hf2
  let s : Nat := input1.sign ^^^ input2.sign
  if is_nan input1 || is_nan input2 then
    compose_half { sign := if is_nan input1 then input1.sign else input2.sign
                   exp := 16, mant := 1 }
  else if is_infinity input1 && is_infinity input2 then
    compose_half { sign := 0x8000, exp := 16, mant := 1 }
  else if is_infinity input1 || is_zero input2 then
    compose_half { sign := s, exp := 16, mant := 0 }
  else if is_infinity input2 || is_zero input1 then
    compose_half { sign := s, exp := -15, mant := 0 }
  else if !(is_zero input1 && is_zero input2) then
    let dividend : Nat := lowBits (input1.mant * 32768) 32
    let q : Nat := dividend / input2.mant.toNat
    let q : Nat := if dividend % input2.mant.toNat ≠ 0 then q ||| 1 else q
    compose_half (normalize_and_round mode
      { sign := s, exp := input1.exp - input2.exp, mant := (q : Int) })
  else
    compose_half { sign := s, exp := 16, mant := 1 }

/-- The 16-iteration two-bit digit loop of `square_root`
(`hf_lib_round.c`): `value` is rotated left by two, the candidate rest
and root are updated, and the trial subtraction is performed when
`rest >= root` (the C form `rest -= root & -cond`). -/
def square_root_loop : Nat → Nat → Nat → Nat → Nat
  | 0, _, root, _ => root
  | fuel + 1, value, root, rest =>
    let value' : Nat := (((value <<< 2) % 2 ^ 32) ||| (value >>> 30))
    let rest' : Nat := (rest <<< 2) + (value' &&& 3)
    let root' : Nat := (root <<< 2) + 1
    if rest' ≥ root' then
      square_root_loop fuel value' ((root' >>> 1) + 1) (rest' - root')
    else
      square_root_loop fuel value' (root' >>> 1) rest'

/-- C `square_root` (`hf_lib_round.c`, lines 665-682): integer square
root of a `uint32_t` by 16 shift-and-subtract iterations. -/
def square_root (value : Nat) : Nat := square_root_loop 16 value 0 0

/-- C `hf_sqrt` (`hf_lib_round.c`, lines 471-519): `±0` and `+Inf`
return themselves, negative or NaN inputs the canonical positive NaN,
and positive finite inputs run the digit square root on the normalized
mantissa (pre-doubled when the exponent is odd) and normalize. -/
def hf_sqrt (mode : hf_rounding_mode) (hf : Nat) : Nat :=
  let input := decompose_half hf
  if is_zero input then
    compose_half { sign := input.sign, exp := input.exp, mant := 0 }
  else if is_infinity input && input.sign == 0 then
    compose_half { sign := 0x0000, exp := 16, mant := 0 }
  else if input.sign == 0 && !is_infinity input && !is_nan input then
    let input := normalize_denormalized_mantissa input
    let value0 : Nat := lowBits (input.mant * 32768) 32
    let value : Nat := if input.exp % 2 ≠ 0 then (value0 <<< 1) % 2 ^ 32 else value0
    let e : Int := if input.exp % 2 ≠ 0 then input.exp - 1 else input.exp
    let root := square_root value
    if root > 0 then
      compose_half (normalize_and_round mode { sign := 0x0000, exp := e / 2, mant := (root : Int) })
    else
      compose_half { sign := 0x0000, exp := 16, mant := 1 }
  else
    compose_half { sign := 0x0000, exp := 16, mant := 1 }

/-- C `exp_fixed` (`hf_lib_common.c`, lines 191-214): reduce the Q15
argument by `LNI_2 = 22713` with C truncating division, look up the
256-entry `exp_table` and interpolate; returns the `(mant, exp)` pair it
stores into the result record. -/
def exp_fixed (exp_table : List Nat) (x_fixed : Int) : Int × Int :=
  let k0 : Int := Int.tdiv x_fixed 22713
  let r0 : Int := x_fixed - k0 * 22713
  let k_exp : Int := if r0 < 0 then k0 - 1 else k0
  let r_fixed : Int := if r0 < 0 then r0 + 22713 else r0
  let index0 : Int := Int.tdiv (r_fixed * 256) 22713
  let index : Int := if index0 ≥ 256 then 255 else index0
  let mant0 : Int := ((exp_table.getD index.toNat 0 : Nat) : Int)
  if index < 255 then
    let frac : Int := (r_fixed * 256) % 22713 * 256
    let t1 : Int := ((exp_table.getD (index.toNat + 1) 0 : Nat) : Int)
    (mant0 + sar (Int.tdiv ((t1 - mant0) * frac) 22713) 8, k_exp)
  else
    (mant0, k_exp)

/-- C `hf_exp` (`hf_lib_exp.c`, lines 83-124): NaN propagates with its
sign, `exp(+Inf) = +Inf`, `exp(-Inf) = 0`, a finite argument past the
threshold (`exp > 3`, or `exp == 3` with `mant >= (3*HF_MANT_NORM_MIN)>>1
= 49152`) saturates to `+Inf` or `0` by sign, and otherwise the Q15
argument goes through `exp_fixed` and normalization. -/
def hf_exp (exp_table : List Nat) (mode : hf_rounding_mode) (hf : Nat) : Nat :=
  let input := decompose_half hf
  if is_nan input then
    compose_half { sign := input.sign, exp := 16, mant := 1 }
  else if is_infinity input then
    compose_half { sign := 0x0000, exp := if input.sign = 0 then 16 else 0, mant := 0 }
  else
    if input.exp > 3 ∨ (input.exp = 3 ∧ 49152 ≤ input.mant) then
      compose_half { sign := 0x0000, exp := if input.sign = 0 then 16 else 0, mant := 0 }
    else
      let x0 : Int := if input.sign ≠ 0 then -input.mant else input.mant
      let x_fixed : Int := if input.exp ≥ 0 then x0 * 2 ^ input.exp.toNat
                           else sar x0 (-input.exp).toNat
      let p := exp_fixed exp_table x_fixed
      compose_half (normalize_and_round mode { sign := 0x0000, exp := p.2, mant := p.1 })

/-- C stub `hf_cbrt` (`hf_lib_round.c`, lines 586-589): returns
`HF_NAN`. -/
def hf_cbrt (hf : Nat) : Nat := 0x7E00

/-- C stub `hf_fma` (`hf_lib_round.c`, lines 601-604). -/
def hf_fma (hfa hfb hfc : Nat) : Nat := 0x7E00

/-- C stub `hf_hypot` (`hf_lib_round.c`, lines 613-616). -/
def hf_hypot (hfx hfy : Nat) : Nat := 0x7E00

/-- C stub `hf_fmod` (`hf_lib_round.c`, lines 626-629). -/
def hf_fmod (hfx hfy : Nat) : Nat := 0x7E00

/-- C stub `hf_remainder` (`hf_lib_round.c`, lines 638-641). -/
def hf_remainder (hfx hfy : Nat) : Nat := 0x7E00

/-- C stub `hf_remquo` (`hf_lib_round.c`, lines 651-654): the quotient
pointer is never written, modelled by returning the pointed-to value
unchanged next to the result. -/
def hf_remquo (hfx hfy : Nat) (quo : Int) : Nat × Int := (0x7E00, quo)

/-- C stub `hf_log2` (`hf_lib_exp.c`, lines 264-266). -/
def hf_log2 (a : Nat) : Nat := 0x7E00

/-- C stub `hf_log10` (`hf_lib_exp.c`, lines 274-276). -/
def hf_log10 (a : Nat) : Nat := 0x7E00

/-- C stub `hf_exp2` (`hf_lib_exp.c`, lines 284-286). -/
def hf_exp2 (a : Nat) : Nat := 0x7E00

/-- C stub `hf_exp10` (`hf_lib_exp.c`, lines 294-296). -/
def hf_exp10 (a : Nat) : Nat := 0x7E00

/-- C stub `hf_expm1` (`hf_lib_exp.c`, lines 304-306). -/
def hf_expm1 (a : Nat) : Nat := 0x7E00

/-- C stub `hf_log1p` (`hf_lib_exp.c`, lines 314-316). -/
def hf_log1p (a : Nat) : Nat := 0x7E00

/-- C `reduce_radian_uword` (`hf_lib_common.c`, lines 41-52): reduces a
32-bit fixed-point radian angle into a 16-bit fraction of a turn using
64-bit arithmetic. The constants are the exact values of the C double
expressions `(uint64_t)((2.0*M_PI)*2^32 + 0.5)` and
`(uint64_t)((1.0/(2.0*M_PI))*2^32 + 0.5)`. -/
def reduce_radian_uword (angle_rad_fixed : Nat) (fact : Nat) : Nat :=
  let fixed_two_pi : Nat := 26986075409 >>> fact
  let fixed_two_pi_inv : Nat := (683565276 <<< fact) % 2 ^ 64
  let angle : Nat := (angle_rad_fixed <<< 17) % 2 ^ 64
  let cnt : Nat := angle / fixed_two_pi
  let red : Nat := angle - cnt * fixed_two_pi
  let res : Nat := (red * fixed_two_pi_inv) % 2 ^ 64
  (res >>> 48) % 65536

/-- The base entry index chosen by `table_interpolate`
(`hf_lib_common.c`): the integer part of the fixed-point index, clamped
to the last table entry. -/
def ti_idx0 (size : Int) (index : Nat) (frac_bits : Nat) : Int :=
  let i : Int := ((index >>> frac_bits : Nat) : Int)
  if i ≥ size then size - 1 else i

/-- The adjacent entry index chosen by `table_interpolate`: the base
index plus one, clamped to the last table entry. -/
def ti_idx1 (size : Int) (index : Nat) (frac_bits : Nat) : Int :=
  let i : Int := ((index >>> frac_bits : Nat) : Int) + 1
  if i ≥ size then size - 1 else i

/-- C `table_interpolate` (`hf_lib_common.c`, lines 151-164): linear
interpolation between the two clamped entries `ti_idx0` and `ti_idx1`,
with a rounding bias of half an index step; the `int` sum is returned as
`uint16_t`, hence the final truncation to 16 bits. -/
def table_interpolate (table : List Nat) (size : Int) (index : Nat) (frac_bits : Nat) : Nat :=
  let idx0 : Int := ti_idx0 size index frac_bits
  let idx1 : Int := ti_idx1 size index frac_bits
  let frac : Int := ((index &&& (2 ^ frac_bits - 1) : Nat) : Int)
  let val0 : Int := ((table.getD idx0.toNat 0 : Nat) : Int)
  let val1 : Int := ((table.getD idx1.toNat 0 : Nat) : Int)
  lowBits (val0 + sar ((val1 - val0) * frac + 2 ^ (frac_bits - 1)) frac_bits) 16

/-- C `sinus_shiftable` (`src/unnamed/part_001`, lines 650-703): the
shared sine/cosine path. A NaN keeps its sign, an infinity becomes the
negative NaN; otherwise the angle is reduced to a 16-bit turn fraction,
phase-shifted, folded into the first quadrant, interpolated in the
quarter-wave `sin_table` (1024+1 entries) and normalized. -/
def sinus_shiftable (sin_table : List Nat) (mode : hf_rounding_mode)
    (hfangle : Nat) (shift : Nat) : Nat :=
  let angle_hf := decompose_half hfangle
  if is_nan angle_hf then
    compose_half { sign := angle_hf.sign, exp := 16, mant := 1 }
  else if is_infinity angle_hf then
    compose_half { sign := 0x8000, exp := 16, mant := 1 }
  else
    let m1 : Int := if angle_hf.exp ≥ 0 then angle_hf.mant * 2 ^ angle_hf.exp.toNat
                    else sar angle_hf.mant (-angle_hf.exp).toNat
    let norm0 : Int := ((reduce_radian_uword (lowBits m1 32) 0 : Nat) : Int)
    let norm1 : Int := if angle_hf.sign ≠ 0 then 65536 - norm0 else norm0
    let norm : Nat := lowBits (norm1 + (shift : Int)) 16
    let idx_q4a : Nat := norm &&& 0x3fff
    let idx_q4 : Nat := if norm &&& 0x4000 ≠ 0 then 0x3fff - idx_q4a else idx_q4a
    let mant0 : Int := ((table_interpolate sin_table 1025 idx_q4 4 : Nat) : Int)
    let mant1 : Int := if norm &&& 0x8000 ≠ 0 then -mant0 else mant0
    let r : half_float :=
      if mant1 < 0 then { sign := 0x8000, exp := 0, mant := -mant1 }
      else { sign := 0x0000, exp := 0, mant := mant1 }
    compose_half (normalize_and_round mode r)

/-- C `hf_sin` (`src/unnamed/part_001`, lines 38-40). -/
def hf_sin (sin_table : List Nat) (mode : hf_rounding_mode) (hfangle : Nat) : Nat :=
  sinus_shiftable sin_table mode hfangle 0

/-- C `hf_cos` (`src/unnamed/part_001`, lines 57-60): sine with a
quarter-turn phase shift of 16384. -/
def hf_cos (sin_table : List Nat) (mode : hf_rounding_mode) (hfangle : Nat) : Nat :=
  sinus_shiftable sin_table mode hfangle 16384

/-- C `hf_tan` (`src/unnamed/part_001`, lines 75-149): a NaN keeps its
sign, an infinity becomes the negative NaN; otherwise the angle is
reduced, folded, routed to the Q13 low table (up to 75 degrees, scaled by
4) or the Q6 high table (scaled by 512), interpolated, sign-adjusted by
quadrant, saturated to a signed infinity past `1 << 26`, and
normalized. -/
def hf_tan (tan_table_low tan_table_high : List Nat) (mode : hf_rounding_mode)
    (hfangle : Nat) : Nat :=
  let angle_hf := decompose_half hfangle
  if is_nan angle_hf || is_infinity angle_hf then
    compose_half { sign := if is_nan angle_hf then angle_hf.sign else 0x8000
                   exp := 16, mant := 1 }
  else
    let m1 : Int := if angle_hf.exp ≥ 0 then angle_hf.mant * 2 ^ angle_hf.exp.toNat
                    else sar angle_hf.mant (-angle_hf.exp).toNat
    let norm0 : Int := ((reduce_radian_uword (lowBits m1 32) 1 : Nat) : Int)
    let norm : Int := if angle_hf.sign ≠ 0 then 65536 - norm0 else norm0
    let input_norm0 : Int := if norm > 32768 then 65536 - norm else norm
    -- dual-table selection at SWITCH_NORM_75DEG = 27306
    let input_norm : Int := if input_norm0 > 27306 then input_norm0 - 27306 else input_norm0
    let range_norm : Int := if input_norm0 > 27306 then 32768 - 27306 else 27306
    let qshift : Nat := if input_norm0 > 27306 then 9 else 2
    let table_ptr : List Nat := if input_norm0 > 27306 then tan_table_high else tan_table_low
    let interp_index : Int := Int.tdiv (input_norm * 256) range_norm
    let frac : Int := Int.tdiv ((input_norm * 256) % range_norm * 128) range_norm
    let value : Int :=
      ((table_interpolate table_ptr 257 ((interp_index.toNat <<< 7) ||| frac.toNat) 7 : Nat) : Int)
    let value : Int := value * 2 ^ qshift
    let mant0 : Int := if norm > 32768 then -value else value
    if mant0 > 67108864 ∨ mant0 < -67108864 then
      compose_half { sign := if mant0 < 0 then 0x8000 else 0x0000, exp := 16, mant := 0 }
    else
      let r : half_float :=
        if mant0 < 0 then { sign := 0x8000, exp := 0, mant := -mant0 }
        else { sign := 0x0000, exp := 0, mant := mant0 }
      compose_half (normalize_and_round mode r)

section Lemmas

/-- The sign field of a decomposition is the sign bit of the word. -/
theorem decompose_sign (w : Nat) : (decompose_half w).sign = w &&& 0x8000 := rfl

theorem lowBits_coe (n k : Nat) : lowBits (n : Int) k = n % 2 ^ k := by
  unfold lowBits
  norm_cast

theorem sar_coe (n k : Nat) : sar (n : Int) k = ((n / 2 ^ k : Nat) : Int) := by
  unfold sar
  have h1 : ((n : Int) % 2 ^ k) = ((n % 2 ^ k : Nat) : Int) := by norm_cast
  rw [h1]
  have h2 : (n : Int) - ((n % 2 ^ k : Nat) : Int) = ((n - n % 2 ^ k : Nat) : Int) := by
    have := Nat.mod_le n (2 ^ k)
    omega
  rw [h2]
  have h3 : n - n % 2 ^ k = 2 ^ k * (n / 2 ^ k) := by
    have := Nat.div_add_mod n (2 ^ k)
    omega
  rw [h3]
  have h4 : ((2 ^ k * (n / 2 ^ k) : Nat) : Int) = (2 ^ k : Int) * ((n / 2 ^ k : Nat) : Int) := by
    push_cast
    ring
  rw [h4]
  rw [Int.mul_ediv_cancel_left _ (by positivity)]

theorem tbitP_coe (n k : Nat) : tbitP (n : Int) k ↔ 2 ^ k ≤ n % 2 ^ (k + 1) := by
  unfold tbitP
  constructor
  · intro h
    have h1 : ((n : Int) % 2 ^ (k + 1)) = ((n % 2 ^ (k + 1) : Nat) : Int) := by norm_cast
    rw [h1] at h
    exact_mod_cast h
  · intro h
    have h1 : ((n : Int) % 2 ^ (k + 1)) = ((n % 2 ^ (k + 1) : Nat) : Int) := by norm_cast
    rw [h1]
    exact_mod_cast h

/-- OR of a multiple of `2^k` with a value below `2^k` is addition. -/
theorem or_low {k : Nat} (x m : Nat) (hx : x % 2 ^ k = 0) (hm : m < 2 ^ k) :
    x ||| m = x + m := by
  obtain ⟨a, rfl⟩ := Nat.dvd_of_mod_eq_zero hx
  exact (Nat.mul_add_lt_is_or hm a).symm

theorem and_sign_bit (w : Nat) : w &&& 32768 = w / 32768 % 2 * 32768 := by
  have h := Nat.and_two_pow w 15
  rw [Nat.testBit_to_div_mod] at h
  have h15 : (2 : Nat) ^ 15 = 32768 := by norm_num
  rw [h15] at h
  rcases Nat.mod_two_eq_zero_or_one (w / 32768) with hd | hd <;> rw [hd] at h <;>
    norm_num at h <;> omega

/-- Arithmetic form of `decompose_half`, in terms of the raw sign,
exponent and mantissa fields of the word. -/
theorem decompose_eq (w : Nat) :
    decompose_half w =
      { sign := w / 32768 % 2 * 32768
        exp := if w / 1024 % 32 = 0 then -15
               else if w / 1024 % 32 = 31 then 16 else ((w / 1024 % 32 : Nat) : Int) - 15
        mant := if w / 1024 % 32 = 0 ∨ w / 1024 % 32 = 31 then ((w % 1024 * 32 : Nat) : Int)
                else ((w % 1024 * 32 + 32768 : Nat) : Int) } := by
  unfold decompose_half
  have he : (w >>> 10) &&& 31 = w / 1024 % 32 := by
    rw [Nat.shiftRight_eq_div_pow]
    have : (31 : Nat) = 2 ^ 5 - 1 := by norm_num
    rw [this, Nat.and_pow_two_sub_one_eq_mod]
  have hm : (w &&& 0x3FF) <<< 5 = w % 1024 * 32 := by
    have : (0x3FF : Nat) = 2 ^ 10 - 1 := by norm_num
    rw [this, Nat.and_pow_two_sub_one_eq_mod, Nat.shiftLeft_eq]
  have hor : w % 1024 * 32 ||| 32768 = w % 1024 * 32 + 32768 := by
    rw [Nat.lor_comm]
    rw [or_low (k := 15) 32768 (w % 1024 * 32) (by norm_num)
      (by have := Nat.mod_lt w (show 0 < 1024 by norm_num); omega)]
    omega
  simp only [he, hm, and_sign_bit, hor]

end Lemmas

section ComposeLemmas

theorem compose_normal (s e m : Nat) (hs : s ≤ 1) (he1 : 1 ≤ e) (he2 : e ≤ 30) (hm : m < 1024) :
    compose_half { sign := s * 32768, exp := (e : Int) - 15, mant := ((m * 32 + 32768 : Nat) : Int) }
      = s * 32768 + e * 1024 + m := by
  have hexp : ¬((e : Int) - 15 = 16) := by omega
  have htb : tbitP ((m * 32 + 32768 : Nat) : Int) 15 := by
    rw [tbitP_coe]
    have : (m * 32 + 32768) % 2 ^ 16 = m * 32 + 32768 := Nat.mod_eq_of_lt (by omega)
    omega
  simp only [compose_half]
  rw [if_neg hexp, if_pos htb]
  have he' : ((e : Int) - 15 + 15) = ((e : Nat) : Int) := by ring
  rw [he', lowBits_coe, sar_coe, lowBits_coe]
  have h1 : e % 2 ^ 5 = e := Nat.mod_eq_of_lt (by omega)
  have h2 : (m * 32 + 32768) / 2 ^ 5 % 2 ^ 10 = m := by omega
  rw [h1, h2, Nat.shiftLeft_eq]
  rw [or_low (k := 15) (s * 32768) (e * 2 ^ 10) (by omega) (by omega)]
  rw [or_low (k := 10) (s * 32768 + e * 2 ^ 10) m (by omega) (by omega)]

theorem compose_sub (s m : Nat) (hs : s ≤ 1) (hm : m < 1024) :
    compose_half { sign := s * 32768, exp := -15, mant := ((m * 32 : Nat) : Int) }
      = s * 32768 + m := by
  have htb : ¬tbitP ((m * 32 : Nat) : Int) 15 := by
    rw [tbitP_coe]
    have : (m * 32) % 2 ^ 16 = m * 32 := Nat.mod_eq_of_lt (by omega)
    omega
  simp only [compose_half]
  rw [if_neg htb]
  rw [sar_coe, lowBits_coe]
  have h2 : m * 32 / 2 ^ 5 % 2 ^ 10 = m := by omega
  rw [h2]
  exact or_low (k := 15) _ _ (by omega) (by omega)

theorem compose_full (s m : Nat) (hs : s ≤ 1) (hm : m < 1024) :
    compose_half { sign := s * 32768, exp := 16, mant := ((m * 32 : Nat) : Int) }
      = if m = 0 then s * 32768 + 31744 else s * 32768 + 32256 := by
  simp only [compose_half]
  by_cases hm0 : m = 0
  · subst hm0
    norm_num
    exact or_low (k := 15) _ _ (by omega) (by omega)
  · rw [if_pos (Int.natCast_ne_zero.mpr (by omega) : ((m * 32 : Nat) : Int) ≠ 0), if_neg hm0]
    exact or_low (k := 15) _ _ (by omega) (by omega)

theorem oct_compose_full (s m : Nat) (hs : s ≤ 1) (hm : m < 1024) :
    Oct.compose_half { sign := s * 32768, exp := 16, mant := ((m * 32 : Nat) : Int) }
      = if m = 0 then s * 32768 + 31744 else s * 32768 + 32256 := by
  simp only [Oct.compose_half]
  by_cases hm0 : m = 0
  · subst hm0
    norm_num
    exact or_low (k := 15) _ _ (by omega) (by omega)
  · rw [if_pos (Int.natCast_ne_zero.mpr (by omega) : ((m * 32 : Nat) : Int) ≠ 0), if_neg hm0]
    exact or_low (k := 15) _ _ (by omega) (by omega)

theorem oct_compose_normal (s e m : Nat) (hs : s ≤ 1) (he1 : 1 ≤ e) (he2 : e ≤ 30) (hm : m < 1024) :
    Oct.compose_half { sign := s * 32768, exp := (e : Int) - 15, mant := ((m * 32 + 32768 : Nat) : Int) }
      = s * 32768 + e * 1024 + m := by
  have hexp : ¬((e : Int) - 15 = 16) := by omega
  have hexp2 : ¬((e : Int) - 15 = -15) := by omega
  simp only [Oct.compose_half]
  rw [if_neg hexp, if_neg hexp2,
    if_pos (Int.natCast_ne_zero.mpr (by omega) : ((m * 32 + 32768 : Nat) : Int) ≠ 0)]
  have he' : ((e : Int) - 15 + 15) = ((e : Nat) : Int) := by ring
  rw [he', lowBits_coe, sar_coe, lowBits_coe]
  have h1 : e % 2 ^ 5 = e := Nat.mod_eq_of_lt (by omega)
  have h2 : (m * 32 + 32768) / 2 ^ 5 % 2 ^ 10 = m := by omega
  rw [h1, h2, Nat.shiftLeft_eq]
  rw [or_low (k := 15) (s * 32768) (e * 2 ^ 10) (by omega) (by omega)]
  rw [or_low (k := 10) (s * 32768 + e * 2 ^ 10) m (by omega) (by omega)]

theorem oct_compose_sub (s m : Nat) (hs : s ≤ 1) (hm : m < 1024) :
    Oct.compose_half { sign := s * 32768, exp := -15, mant := ((m * 32 : Nat) : Int) }
      = s * 32768 + m / 2 := by
  simp only [Oct.compose_half]
  rw [sar_coe, lowBits_coe]
  have h2 : m * 32 / 2 ^ 6 % 2 ^ 10 = m / 2 := by omega
  rw [h2]
  exact or_low (k := 15) _ _ (by omega) (by omega)

end ComposeLemmas

/-- C1 counterexample: the decompose/compose round-trip is not the
identity on all 65536 words. Under the cited `compose_half` of
`src/halffloat/hf_common.c` (namespace `Oct`), the subnormal word
`0x0001` collapses to `0x0000` and the NaN word `0x7C01` canonicalizes to
`0x7E00`; the current-revision `compose_half` also canonicalizes
`0x7C01`. -/
theorem hf_c1_counterexample :
    Oct.compose_half (decompose_half 0x0001) = 0x0000 ∧ (0x0000 : Nat) ≠ 0x0001 ∧
    Oct.compose_half (decompose_half 0x7C01) = 0x7E00 ∧ (0x7E00 : Nat) ≠ 0x7C01 ∧
    compose_half (decompose_half 0x7C01) = 0x7E00 := by
  constructor
  · rfl
  refine ⟨by decide, rfl, by decide, rfl⟩

/-- C1 (amended): `compose_half (decompose_half w) = w`, and hence also
`decompose_half (compose_half (decompose_half w)) = decompose_half w`,
holds for every 16-bit word `w` that is not a NaN with a payload other
than the canonical `0x200`; under the earlier-revision `Oct.compose_half`
cited by the claim it additionally requires `w` not to be a nonzero
subnormal (exponent field 0 with nonzero mantissa field). -/
theorem hf_c1_roundtrip (w : Nat) (hw : w < 65536)
    (hnan : w / 1024 % 32 = 31 → w % 1024 = 0 ∨ w % 1024 = 512) :
    (compose_half (decompose_half w) = w ∧
      decompose_half (compose_half (decompose_half w)) = decompose_half w) ∧
    ((w / 1024 % 32 = 0 → w % 1024 = 0) →
      Oct.compose_half (decompose_half w) = w ∧
      decompose_half (Oct.compose_half (decompose_half w)) = decompose_half w) := by
  have hsle : w / 32768 ≤ 1 := by omega
  have hm : w % 1024 < 1024 := Nat.mod_lt _ (by norm_num)
  have hs : w / 32768 % 2 = w / 32768 := Nat.mod_eq_of_lt (by omega)
  have key : compose_half (decompose_half w) = w := by
    rw [decompose_eq, hs]
    by_cases he0 : w / 1024 % 32 = 0
    · rw [if_pos he0, if_pos (Or.inl he0)]
      rw [compose_sub _ _ hsle hm]
      omega
    · by_cases he31 : w / 1024 % 32 = 31
      · rw [if_neg he0, if_pos he31, if_pos (Or.inr he31)]
        rw [compose_full _ _ hsle hm]
        rcases hnan he31 with h | h <;> rw [h] <;> norm_num <;> omega
      · rw [if_neg he0, if_neg he31, if_neg (by tauto : ¬(w / 1024 % 32 = 0 ∨ w / 1024 % 32 = 31))]
        rw [compose_normal (w / 32768) (w / 1024 % 32) (w % 1024) hsle (by omega) (by omega) hm]
        omega
  have keyOct : (w / 1024 % 32 = 0 → w % 1024 = 0) →
      Oct.compose_half (decompose_half w) = w := by
    intro hsub
    rw [decompose_eq, hs]
    by_cases he0 : w / 1024 % 32 = 0
    · rw [if_pos he0, if_pos (Or.inl he0)]
      rw [oct_compose_sub _ _ hsle hm]
      have := hsub he0
      omega
    · by_cases he31 : w / 1024 % 32 = 31
      · rw [if_neg he0, if_pos he31, if_pos (Or.inr he31)]
        rw [oct_compose_full _ _ hsle hm]
        rcases hnan he31 with h | h <;> rw [h] <;> norm_num <;> omega
      · rw [if_neg he0, if_neg he31, if_neg (by tauto : ¬(w / 1024 % 32 = 0 ∨ w / 1024 % 32 = 31))]
        rw [oct_compose_normal (w / 32768) (w / 1024 % 32) (w % 1024) hsle (by omega) (by omega) hm]
        omega
  exact ⟨⟨key, by rw [key]⟩, fun hsub => ⟨keyOct hsub, by rw [keyOct hsub]⟩⟩

/-- C1 witness: the round-trip theorem applied at the normal word
`0x4242`, discharging the hypotheses there. -/
theorem hf_c1_roundtrip_witness :
    compose_half (decompose_half 0x4242) = 0x4242 ∧
    Oct.compose_half (decompose_half 0x4242) = 0x4242 :=
  ⟨((hf_c1_roundtrip 0x4242 (by decide) (by decide)).1).1,
   (((hf_c1_roundtrip 0x4242 (by decide) (by decide)).2) (by decide)).1⟩

/-- C2: `normalize_and_round` rounds per the process-wide mode: the mode
defaults to nearest-even; under nearest-even a guard/sticky value past an
exact half rounds up (`0x8011` to `0x3C01`), an exact half rounds up
exactly when the retained LSB is 1 (`0x8010` stays `0x3C00`, `0x8030`
goes to `0x3C02`), and a rounding carry renormalizes one bit (`0xFFFF`
becomes `2.0`); and for every two distinct modes some decomposed record
is normalized/rounded to different words. -/
theorem hf_c2_rounding_modes :
    initial_rounding_mode = hf_rounding_mode.HF_ROUND_NEAREST_EVEN ∧
    (compose_half (normalize_and_round .HF_ROUND_NEAREST_EVEN ⟨0, 0, 0x8010⟩) = 0x3C00 ∧
     compose_half (normalize_and_round .HF_ROUND_NEAREST_EVEN ⟨0, 0, 0x8030⟩) = 0x3C02 ∧
     compose_half (normalize_and_round .HF_ROUND_NEAREST_EVEN ⟨0, 0, 0x8011⟩) = 0x3C01 ∧
     compose_half (normalize_and_round .HF_ROUND_NEAREST_EVEN ⟨0, 0, 0xFFFF⟩) = 0x4000) ∧
    (∀ m1 m2 : hf_rounding_mode, m1 ≠ m2 →
      ∃ r : half_float,
        compose_half (normalize_and_round m1 r) ≠ compose_half (normalize_and_round m2 r)) := by
  refine ⟨rfl, by decide, ?_⟩
  intro m1 m2 h
  cases m1 <;> cases m2 <;>
    first
      | exact absurd rfl h
      | exact ⟨⟨0, 0, 0x8010⟩, by decide⟩
      | exact ⟨⟨0, 0, 0x8030⟩, by decide⟩
      | exact ⟨⟨0x8000, 0, 0x8010⟩, by decide⟩

/-- C2 witness: the rounding-mode theorem applied at the concrete mode
pair nearest-even versus toward-zero. -/
theorem hf_c2_rounding_modes_witness :
    ∃ r : half_float,
      compose_half (normalize_and_round .HF_ROUND_NEAREST_EVEN r) ≠
      compose_half (normalize_and_round .HF_ROUND_TOWARD_ZERO r) :=
  hf_c2_rounding_modes.2.2 .HF_ROUND_NEAREST_EVEN .HF_ROUND_TOWARD_ZERO (by decide)

/-- C3: the claimed comparison contract fails in the code. `hf_cmp`
compares the raw sign fields first, so `hf_cmp(+0, -0) = 1` and
`hf_cmp(-0, +0) = -1` instead of the documented `0`; and because
`compare_half` XORs the 0/1 comparison bit with the `0x8000` sign mask,
both `hf_cmp(-1.0, -2.0)` and `hf_cmp(-2.0, -1.0)` return `-1`, breaking
antisymmetry (and the claimed order) for negative operands. -/
theorem hf_c3_cmp_evaluation :
    hf_cmp 0x0000 0x8000 = 1 ∧ hf_cmp 0x8000 0x0000 = -1 ∧
    hf_cmp 0xBC00 0xC000 = -1 ∧ hf_cmp 0xC000 0xBC00 = -1 := by
  refine ⟨by decide, by decide, by decide, by decide⟩

/-- C4: the claimed special-value matrix fails at `0/0`. The cited
`hf_div` tests `is_zero` on the divisor before the `0/0` case, so
`hf_div(+0, +0)` returns `+Infinity` (`0x7C00`) and `hf_div(-0, +0)`
returns `-Infinity` (`0xFC00`) instead of the NaN required by the claim,
the spec table, and the earlier revision's explicit `0/0 = NaN` branch
(the division path never rounds here, so the default mode is used). -/
theorem hf_c4_div_zero_zero :
    hf_div initial_rounding_mode 0x0000 0x0000 = 0x7C00 ∧
    hf_div initial_rounding_mode 0x8000 0x0000 = 0xFC00 ∧
    hf_div initial_rounding_mode 0x8000 0x8000 = 0x7C00 := by
  refine ⟨by decide, by decide, by decide⟩

/-- C6: concrete exact results through the full
decompose/align/normalize/round/compose pipeline, for every rounding
mode (these results are exact, so no mode rounds differently):
`hf_add(1.0, 2.0) = 3.0` (`0x4200`), `hf_sqrt(4.0) = 2.0` (`0x4000`) and
`hf_div(1.0, +0.0) = +Infinity` (`0x7C00`). -/
theorem hf_c6_concrete_pipeline (mode : hf_rounding_mode) :
    hf_add mode 0x3C00 0x4000 = 0x4200 ∧
    hf_sqrt mode 0x4400 = 0x4000 ∧
    hf_div mode 0x3C00 0x0000 = 0x7C00 := by
  cases mode <;> exact ⟨by decide, by decide, by decide⟩

/-- C10: the unimplemented surface returns the canonical NaN `0x7E00`
unconditionally: `hf_cbrt`, `hf_fma`, `hf_hypot`, `hf_fmod`,
`hf_remainder`, `hf_remquo` (which also leaves the pointed-to quotient
unchanged), `hf_log2`, `hf_log10`, `hf_exp2`, `hf_exp10`, `hf_expm1` and
`hf_log1p`. -/
theorem hf_c10_stubs (a b c : Nat) (q : Int) :
    hf_cbrt a = 0x7E00 ∧ hf_fma a b c = 0x7E00 ∧ hf_hypot a b = 0x7E00 ∧
    hf_fmod a b = 0x7E00 ∧ hf_remainder a b = 0x7E00 ∧
    hf_remquo a b q = (0x7E00, q) ∧
    hf_log2 a = 0x7E00 ∧ hf_log10 a = 0x7E00 ∧ hf_exp2 a = 0x7E00 ∧
    hf_exp10 a = 0x7E00 ∧ hf_expm1 a = 0x7E00 ∧ hf_log1p a = 0x7E00 :=
  ⟨rfl, rfl, rfl, rfl, rfl, rfl, rfl, rfl, rfl, rfl, rfl, rfl⟩

/-- C5: sign-preserving NaN propagation. For `hf_add`, `hf_mul`,
`hf_div`, `hf_sin`, `hf_cos` and `hf_tan`, whenever at least one operand
is a NaN, the result is the NaN word whose sign bit is the sign bit of
the first NaN operand: `(sign of first NaN) ||| 0x7E00`. This holds for
every rounding mode and every lookup-table contents. -/
theorem hf_c5_nan_propagation (mode : hf_rounding_mode) (ts tl th : List Nat)
    (w1 w2 : Nat) (hw1 : w1 < 65536) (hw2 : w2 < 65536) :
    (is_nan (decompose_half w1) = true →
      hf_add mode w1 w2 = (w1 &&& 0x8000) ||| 0x7E00 ∧
      hf_mul mode w1 w2 = (w1 &&& 0x8000) ||| 0x7E00 ∧
      hf_div mode w1 w2 = (w1 &&& 0x8000) ||| 0x7E00 ∧
      hf_sin ts mode w1 = (w1 &&& 0x8000) ||| 0x7E00 ∧
      hf_cos ts mode w1 = (w1 &&& 0x8000) ||| 0x7E00 ∧
      hf_tan tl th mode w1 = (w1 &&& 0x8000) ||| 0x7E00) ∧
    (is_nan (decompose_half w1) = false → is_nan (decompose_half w2) = true →
      hf_add mode w1 w2 = (w2 &&& 0x8000) ||| 0x7E00 ∧
      hf_mul mode w1 w2 = (w2 &&& 0x8000) ||| 0x7E00 ∧
      hf_div mode w1 w2 = (w2 &&& 0x8000) ||| 0x7E00) := by
  constructor
  · intro h1
    refine ⟨?_, ?_, ?_, ?_, ?_, ?_⟩ <;>
      simp only [hf_add, hf_mul, hf_div, hf_sin, hf_cos, hf_tan, sinus_shiftable,
        compose_half, decompose_sign, h1, Bool.true_or, if_true, reduceIte] <;> norm_num
  · intro h1 h2
    refine ⟨?_, ?_, ?_⟩ <;>
      simp only [hf_add, hf_mul, hf_div, compose_half, decompose_sign, h1, h2,
        Bool.false_or, Bool.true_or, if_true, Bool.false_eq_true, if_false, reduceIte] <;>
      norm_num

/-- C5 witness: the propagation theorem applied at the negative NaN
`0xFE01` and second operand `1.0`, and at `1.0` with NaN `0x7E01`. -/
theorem hf_c5_nan_propagation_witness :
    hf_add initial_rounding_mode 0xFE01 0x3C00 = 0xFE00 ∧
    hf_add initial_rounding_mode 0x3C00 0x7E01 = 0x7E00 := by
  constructor
  · have h := (hf_c5_nan_propagation initial_rounding_mode [] [] [] 0xFE01 0x3C00
      (by decide) (by decide)).1 (by decide)
    exact h.1
  · have h := (hf_c5_nan_propagation initial_rounding_mode [] [] [] 0x3C00 0x7E01
      (by decide) (by decide)).2 (by decide) (by decide)
    exact h.1

/-- C7: exponential saturation. For every finite input word whose
decomposition satisfies the threshold (`exp > 3`, or `exp = 3` with
extended mantissa at least `1.5 * 2^15 = 49152`, i.e. `|x| >= 12`),
`hf_exp` returns `+Infinity` (`0x7C00`) for a positive sign and `+0`
(`0x0000`) for a negative sign, for every table contents and rounding
mode (the table is never consulted); moreover `hf_exp(+Inf) = 0x7C00`
and `hf_exp(-Inf) = 0x0000`. -/
theorem hf_c7_exp_saturation (t : List Nat) (mode : hf_rounding_mode) (w : Nat)
    (hw : w < 65536)
    (hnan : is_nan (decompose_half w) = false)
    (hinf : is_infinity (decompose_half w) = false)
    (hth : (decompose_half w).exp > 3 ∨
           ((decompose_half w).exp = 3 ∧ 49152 ≤ (decompose_half w).mant)) :
    (hf_exp t mode w = if (decompose_half w).sign = 0 then 0x7C00 else 0x0000) ∧
    hf_exp t mode 0x7C00 = 0x7C00 ∧ hf_exp t mode 0xFC00 = 0x0000 := by
  refine ⟨?_, rfl, rfl⟩
  simp only [hf_exp, hnan, hinf, Bool.false_eq_true, if_false, if_pos hth]
  by_cases hs : (decompose_half w).sign = 0
  · rw [if_pos hs, if_pos hs]
    decide
  · rw [if_neg hs, if_neg hs]
    decide

/-- C7 witness: the saturation theorem applied at `12.0` (`0x4A00`) and
`-12.0` (`0xCA00`) with the empty table. -/
theorem hf_c7_exp_saturation_witness :
    hf_exp [] initial_rounding_mode 0x4A00 = 0x7C00 ∧
    hf_exp [] initial_rounding_mode 0xCA00 = 0x0000 := by
  constructor
  · have h := (hf_c7_exp_saturation [] initial_rounding_mode 0x4A00 (by decide)
      (by decide) (by decide) (Or.inr ⟨by decide, by decide⟩)).1
    rw [if_pos (by decide)] at h
    exact h
  · have h := (hf_c7_exp_saturation [] initial_rounding_mode 0xCA00 (by decide)
      (by decide) (by decide) (Or.inr ⟨by decide, by decide⟩)).1
    rw [if_neg (by decide)] at h
    exact h

/-- C8: `table_interpolate` stays in bounds. For every size at least 1,
every 32-bit fixed-point index, and every `frac_bits` between 1 and 15
(so the integer part is nonnegative as a signed `int`), both clamped
entry indices `ti_idx0` and `ti_idx1` that `table_interpolate` reads lie
in `[0, size-1]`, so the out-of-bounds case is unreachable. -/
theorem hf_c8_interpolate_bounds (size : Int) (index : Nat) (frac_bits : Nat)
    (hsize : 1 ≤ size) (hindex : index < 4294967296)
    (hfb1 : 1 ≤ frac_bits) (hfb15 : frac_bits ≤ 15)
    (hsigned : ((index >>> frac_bits : Nat) : Int) < 2147483648) :
    (0 ≤ ti_idx0 size index frac_bits ∧ ti_idx0 size index frac_bits < size) ∧
    (0 ≤ ti_idx1 size index frac_bits ∧ ti_idx1 size index frac_bits < size) := by
  unfold ti_idx0 ti_idx1
  dsimp only
  constructor
  · constructor
    · split_ifs with h
      · omega
      · positivity
    · split_ifs with h
      · omega
      · omega
  · constructor
    · split_ifs with h
      · omega
      · positivity
    · split_ifs with h
      · omega
      · omega

/-- C8 witness: the bounds theorem applied at a concrete table size,
index and fraction width. -/
theorem hf_c8_interpolate_bounds_witness :
    (0 ≤ ti_idx0 257 0x123 7 ∧ ti_idx0 257 0x123 7 < 257) ∧
    (0 ≤ ti_idx1 257 0x123 7 ∧ ti_idx1 257 0x123 7 < 257) :=
  hf_c8_interpolate_bounds 257 0x123 7 (by decide) (by decide) (by decide) (by decide) (by decide)

section MinMaxLemmas

theorem compare_half_not_nan (a b : half_float)
    (ha : is_nan a = false) (hb : is_nan b = false) :
    compare_half a b = -1 ∨ compare_half a b = 0 ∨ compare_half a b = 1 := by
  simp only [compare_half, ha, hb, Bool.or_self, Bool.false_eq_true, if_false]
  split_ifs <;> norm_num

theorem compare_half_eq_zero_sign (a b : half_float)
    (h : compare_half a b = 0) : a.sign = b.sign := by
  by_contra hne
  simp only [compare_half] at h
  split_ifs at h <;> omega

theorem zero_words (w : Nat) (hw : w < 65536) (h : is_zero (decompose_half w) = true) :
    w = 0 ∨ w = 32768 := by
  simp only [is_zero, Bool.and_eq_true, bne_iff_ne, beq_iff_eq, decompose_eq] at h
  obtain ⟨hne, hmant⟩ := h
  by_cases he0 : w / 1024 % 32 = 0
  · rw [if_pos (Or.inl he0)] at hmant
    have hz : w % 1024 * 32 = 0 := by exact_mod_cast hmant
    omega
  · by_cases he31 : w / 1024 % 32 = 31
    · rw [if_neg he0, if_pos he31] at hne
      exact absurd rfl hne
    · rw [if_neg (by tauto : ¬(w / 1024 % 32 = 0 ∨ w / 1024 % 32 = 31))] at hmant
      have hz : w % 1024 * 32 + 32768 = 0 := by exact_mod_cast hmant
      omega

end MinMaxLemmas

/-- C9: `hf_min`/`hf_max` contract. If either operand is a NaN, both
return the canonical positive NaN `0x7E00`; `hf_min(+0,-0)` and
`hf_min(-0,+0)` return `-0` and the corresponding `hf_max` calls `+0`;
and on NaN-free operands `hf_min` returns the operand that compares
less-or-equal and `hf_max` the operand that compares greater-or-equal
under `compare_half`. -/
theorem hf_c9_min_max (w1 w2 : Nat) (hw1 : w1 < 65536) (hw2 : w2 < 65536) :
    ((is_nan (decompose_half w1) = true ∨ is_nan (decompose_half w2) = true) →
      hf_min w1 w2 = 0x7E00 ∧ hf_max w1 w2 = 0x7E00) ∧
    (hf_min 0x0000 0x8000 = 0x8000 ∧ hf_min 0x8000 0x0000 = 0x8000 ∧
     hf_max 0x0000 0x8000 = 0x0000 ∧ hf_max 0x8000 0x0000 = 0x0000) ∧
    (is_nan (decompose_half w1) = false → is_nan (decompose_half w2) = false →
      (hf_min w1 w2 =
        if compare_half (decompose_half w1) (decompose_half w2) ≤ 0 then w1 else w2) ∧
      (hf_max w1 w2 =
        if 0 ≤ compare_half (decompose_half w1) (decompose_half w2) then w1 else w2)) := by
  refine ⟨?_, ⟨by decide, by decide, by decide, by decide⟩, ?_⟩
  · intro h
    have hcmp : compare_half (decompose_half w1) (decompose_half w2) = -2 := by
      rcases h with h | h <;>
        simp only [compare_half, h, Bool.true_or, Bool.or_true, if_true, reduceIte]
    constructor <;> simp only [hf_min, hf_max, hcmp, reduceIte]
  · intro h1 h2
    rcases compare_half_not_nan _ _ h1 h2 with hc | hc | hc
    · constructor <;> simp only [hf_min, hf_max, hc] <;> norm_num
    · by_cases hz : is_zero (decompose_half w1) = true ∧ is_zero (decompose_half w2) = true
      · obtain ⟨hz1, hz2⟩ := hz
        have hw1z := zero_words w1 hw1 hz1
        have hw2z := zero_words w2 hw2 hz2
        have hsgn := compare_half_eq_zero_sign _ _ hc
        constructor <;> simp only [hf_min, hf_max, hc, hz1, hz2] <;> norm_num <;>
          rcases hw1z with rfl | rfl <;> rcases hw2z with rfl | rfl <;>
            first
              | decide
              | (exact absurd hsgn (by decide))
      · have hznot : ¬(compare_half (decompose_half w1) (decompose_half w2) = 0 ∧
            is_zero (decompose_half w1) ∧ is_zero (decompose_half w2)) := by
          intro hcontra
          exact hz ⟨hcontra.2.1, hcontra.2.2⟩
        constructor <;> simp only [hf_min, hf_max] <;>
          rw [if_neg (by rw [hc]; norm_num), if_neg hznot] <;> rw [hc] <;> norm_num
    · constructor <;> simp only [hf_min, hf_max, hc] <;> norm_num

/-- C9 witness: the min/max theorem applied at a NaN pair and at the
finite pair `(1.0, 2.0)`. -/
theorem hf_c9_min_max_witness :
    hf_min 0x7E01 0x3C00 = 0x7E00 ∧ hf_min 0x3C00 0x4000 = 0x3C00 := by
  constructor
  · exact ((hf_c9_min_max 0x7E01 0x3C00 (by decide) (by decide)).1 (Or.inl (by decide))).1
  · have h := ((hf_c9_min_max 0x3C00 0x4000 (by decide) (by decide)).2.2
      (by decide) (by decide)).1
    rw [if_pos (by decide)] at h
    exact h
